import Mathlib

/-!
# Verification of the hexdump2 line-rendering engine

A shallow embedding of `src/hexdump2/hexdump2.py` (the `_line_gen`
generator, the `hexdump` entry point and the `hd` wrapper class),
with theorems settling the specification's claims about it.

Bytes are modelled as `Nat` values (the Python code only ever sees
values in `0 ..= 255`; hypotheses state that bound where a claim
needs it).  `os.linesep` is modelled for a POSIX platform, where it
is the single character `"\n"`.  Python strings are modelled as Lean
`String`s; the f-string pieces of `_line_gen` become explicit
concatenations of the same fields in the same order.
-/

/-- The value of `os.linesep` on the POSIX platform the dump runs on. -/
def linesep : String := "\n"

/-- The escape `colorama.Fore.GREEN` (the address-field color). -/
def foreGREEN : String := "\x1b[32m"

/-- The escape `colorama.Fore.RED` (the `*` collapse-marker color). -/
def foreRED : String := "\x1b[31m"

/-- The escape `colorama.Fore.RESET` (the reset / neutral color). -/
def foreRESET : String := "\x1b[39m"

/-- The escape `colorama.Fore.CYAN` (the non-printable byte color). -/
def foreCYAN : String := "\x1b[36m"

/-- The escape `colorama.Fore.YELLOW` (the printable byte color). -/
def foreYELLOW : String := "\x1b[33m"

/-- The lowercase hexadecimal digit character for `d < 16`, as produced by
Python's `x` format conversions (`'0'..'9'` then `'a'..'f'`). -/
def hexChar (d : Nat) : Char :=
  if d < 10 then Char.ofNat (48 + d) else Char.ofNat (87 + d)

/-- Digit extraction for the hexadecimal rendering of `n`, most significant
first, with an accumulator and explicit fuel (always called with enough
fuel, `n + 1`, to terminate structurally). -/
def toHexCore : Nat → Nat → List Char → List Char
  | 0, _, acc => acc
  | fuel + 1, n, acc =>
    if n < 16 then hexChar (n % 16) :: acc
    else toHexCore fuel (n / 16) (hexChar (n % 16) :: acc)

/-- The hexadecimal digits of `n`, most significant first; `"0"` for zero.
This is the digit list behind Python's `{n:x}` conversion for `n ≥ 0`. -/
def hexDigits (n : Nat) : List Char :=
  toHexCore (n + 1) n []

/-- Python's `{n:0wx}`: lowercase hexadecimal, zero-padded on the left to a
minimum width of `w` digits, growing without truncation beyond it. -/
def hexPad (w n : Nat) : String :=
  String.mk (List.replicate (w - (hexDigits n).length) '0' ++ hexDigits n)

/-- Python's `{n:08x}`, the address-field format of `_line_gen`. -/
def hex8 (n : Nat) : String := hexPad 8 n

/-- Python's `{b:02x}`, the per-byte format of the hex maps. -/
def hex2 (b : Nat) : String := hexPad 2 b

/-- Python's `str.ljust` / the `{s: <w}` format: left-justify, pad with
spaces on the right up to width `w`. -/
def ljust (s : String) (w : Nat) : String :=
  s ++ String.mk (List.replicate (w - s.length) ' ')

/-- Python's `bytes.hex(' ')`: two lowercase hex digits per byte, bytes
separated by single spaces. -/
def hexSpace : List Nat → String
  | [] => ""
  | [b] => hex2 b
  | b :: b2 :: bs => hex2 b ++ " " ++ hexSpace (b2 :: bs)

/-- The `_ascii_str_map` translation table (identical in content to the
`_non_color_map_ascii` dict): `'.'` below `0x20`, the character itself for
`0x20 ..= 0x7E`, `'.'` from `0x7F` up. -/
def asciiMapNC (b : Nat) : Char :=
  if b < 0x20 then '.' else if b < 0x7F then Char.ofNat b else '.'

/-- The `_color_map_ascii` dict: reset-colored `'.'` for `0x00`, cyan `'.'`
for `0x01 ..= 0x1F`, yellow character for `0x20 ..= 0x7E`, cyan `'.'` for
`0x7F ..= 0xFF`. -/
def colorAsciiMap (b : Nat) : String :=
  if b = 0 then foreRESET ++ "."
  else if b < 0x20 then foreCYAN ++ "."
  else if b < 0x7F then foreYELLOW ++ String.mk [Char.ofNat b]
  else foreCYAN ++ "."

/-- The `_color_map_hex_str` dict: same color classes as
`_color_map_ascii`, each entry `color ++ two hex digits ++ one space`. -/
def colorHexMap (b : Nat) : String :=
  if b = 0 then foreRESET ++ hex2 b ++ " "
  else if b < 0x20 then foreCYAN ++ hex2 b ++ " "
  else if b < 0x7F then foreYELLOW ++ hex2 b ++ " "
  else foreCYAN ++ hex2 b ++ " "

/-- The `addr_color` of `_line_gen`: green when color is active, else `""`. -/
def addrColorS (color : Bool) : String := if color then foreGREEN else ""

/-- The `star_line_color` of `_line_gen`: red when color is active, else `""`. -/
def starColorS (color : Bool) : String := if color then foreRED else ""

/-- The `reset_color` of `_line_gen`: reset when color is active, else `""`. -/
def resetS (color : Bool) : String := if color then foreRESET else ""

/-- The collapse-marker line `f"{star_line_color}*{linesep}"`. -/
def starLine (color : Bool) : String := starColorS color ++ "*" ++ linesep

/-- One data row, the two f-strings at lines 142 and 145 of the source.
`line_data` is the ≤16-byte chunk starting at in-data index `addr`. -/
def formatLine (color : Bool) (offset addr : Nat) (line_data : List Nat) : String :=
  if color then
    foreGREEN ++ hex8 (addr + offset) ++ "  "
      ++ ljust (String.join ((line_data.take 8).map colorHexMap))
          (25 + min (line_data.length * 5) 40)
      ++ ljust (String.join ((line_data.drop 8).map colorHexMap))
          (25 + min ((line_data.length - 8) * 5) 40)
      ++ foreRESET ++ "|" ++ String.join (line_data.map colorAsciiMap)
      ++ foreRESET ++ "|" ++ linesep
  else
    hex8 (addr + offset) ++ "  "
      ++ ljust (hexSpace (line_data.take 8)) 25
      ++ ljust (hexSpace (line_data.drop 8)) 25
      ++ "|" ++ String.mk (line_data.map asciiMapNC) ++ "|" ++ linesep

/-- The `for addr in range(0, len(data), 16)` loop of `_line_gen`, with the
not-yet-processed suffix of the data passed explicitly (its head chunk is
`data[addr : addr + 16]`), together with the `last_line_data` and
`yield_star` loop state.  In the skip branch (`continue`) neither piece of
state is updated, exactly as in the source.  The first argument is fuel
making the recursion structural; `lineLoop` below supplies enough of it,
and `lineLoopF_eq_of_le` shows any sufficient amount gives the same
result. -/
def lineLoopF (offset : Nat) (collapse color : Bool) :
    Nat → List Nat → Nat → Option (List Nat) → Bool → List String
  | _, [], _, _, _ => []
  | 0, _ :: _, _, _, _ => []
  | fuel + 1, b :: bs, addr, last, ystar =>
    if collapse = true ∧ last = some ((b :: bs).take 16) then
      if ystar = true then
        starLine color ::
          lineLoopF offset collapse color fuel ((b :: bs).drop 16) (addr + 16)
            (some ((b :: bs).take 16)) false
      else
        lineLoopF offset collapse color fuel ((b :: bs).drop 16) (addr + 16) last ystar
    else
      formatLine color offset addr ((b :: bs).take 16) ::
        lineLoopF offset collapse color fuel ((b :: bs).drop 16) (addr + 16)
          (some ((b :: bs).take 16)) true

/-- The row loop of `_line_gen`, run on the whole remaining data. -/
def lineLoop (offset : Nat) (collapse color : Bool) (d : List Nat) (addr : Nat)
    (last : Option (List Nat)) (ystar : Bool) : List String :=
  lineLoopF offset collapse color d.length d addr last ystar

/-- The full line sequence produced by `_line_gen` on byte data: the
empty-input special case, then the row loop, then the final address line
(which alone carries no trailing `linesep`). -/
def lineGen (data : List Nat) (offset : Nat) (collapse color : Bool) : List String :=
  if data.length = 0 then
    if offset ≠ 0 then [addrColorS color ++ hex8 offset ++ linesep] else []
  else
    lineLoop offset collapse color data 0 none true
      ++ [addrColorS color ++ hex8 (data.length + offset) ++ resetS color]

/-- Data of `n` back-to-back copies of the chunk `c` (the shape of input that the
collapse claims quantify over). -/
def repData : Nat → List Nat → List Nat
  | 0, _ => []
  | n + 1, c => c ++ repData n c

/-- A Python exception of the kinds `hexdump` can raise. -/
inductive PyErr where
  | typeError (msg : String)
  | valueError (msg : String)
deriving DecidableEq

/-- The shapes of input value relevant to the entry point's duck typing:
real byte strings, text (encoded `iso-8859-1` at line 120), other sized
indexable sequences of integers (converted with `bytes(data)` at line 122),
objects with a length but no byte conversion, and objects without `len`. -/
inductive PyData where
  | bytes (bs : List Nat)
  | str (cps : List Nat)
  | seq (xs : List Int)
  | lenOnly (n : Nat)
  | noLen
deriving DecidableEq

/-- Python's `len(data)` as used at line 102: objects without a length
raise `TypeError`. -/
def pyLen : PyData → Except PyErr Nat
  | .bytes bs => .ok bs.length
  | .str cps => .ok cps.length
  | .seq xs => .ok xs.length
  | .lenOnly n => .ok n
  | .noLen => .error (.typeError "object of this type has no len()")

/-- The normalization of lines 115-122: `bytes`/`bytearray` pass through,
text is encoded `iso-8859-1` (failing for code points above `0xFF`), other
sequences go through `bytes(data)` (failing with `TypeError` when the
object is not convertible, `ValueError` for out-of-range integers). -/
def pyBytes : PyData → Except PyErr (List Nat)
  | .bytes bs => .ok bs
  | .str cps =>
    if cps.all (fun c => decide (c < 256)) then .ok cps
    else .error (.valueError "latin-1 codec cannot encode character")
  | .seq xs =>
    if xs.all (fun x => decide (0 ≤ x ∧ x < 256)) then .ok (xs.map Int.toNat)
    else .error (.valueError "bytes must be in range(0, 256)")
  | .lenOnly _ => .error (.typeError "cannot convert object to bytes")
  | .noLen => .error (.typeError "cannot convert object to bytes")

/-- Running the `_line_gen` generator body to completion on an arbitrary
input object: `len` first (line 102), the empty-input branch, then byte
normalization, then the row loop and the final address line. -/
def lineGenRun (data : PyData) (offset : Nat) (collapse color : Bool) :
    Except PyErr (List String) :=
  match pyLen data with
  | .error e => .error e
  | .ok n =>
    if n = 0 then .ok (lineGen [] offset collapse color)
    else
      match pyBytes data with
      | .error e => .error e
      | .ok bs => .ok (lineGen bs offset collapse color)

/-- A generator object returned by `_line_gen` before any iteration: the
call captures the arguments and runs none of the body. -/
structure GenState where
  data : PyData
  offset : Nat
  collapse : Bool
  color : Bool
deriving DecidableEq

/-- Iterating a returned generator object to exhaustion. -/
def runGen (g : GenState) : Except PyErr (List String) :=
  lineGenRun g.data g.offset g.collapse g.color

/-- What a `hexdump` call produces, by `result` mode: text printed to
stdout, a returned string, or an unstarted generator object. -/
inductive HexdumpRet where
  | printed (out : String)
  | returned (s : String)
  | generator (g : GenState)
deriving DecidableEq

/-- The `hexdump` entry point.  `colorAlways` is the process-wide
`COLOR_ALWAYS` flag read at line 172; when set it overrides the caller's
`color`.  The `result` dispatch mirrors lines 176-190: `print` drains the
generator and appends a final newline, `return` joins it, `generator`
hands back the unstarted generator object, anything else raises
`ValueError`. -/
def hexdump (colorAlways : Bool) (data : PyData) (result : String)
    (offset : Nat) (collapse color : Bool) : Except PyErr HexdumpRet :=
  let color := if colorAlways then colorAlways else color
  if result = "print" then
    match lineGenRun data offset collapse color with
    | .error e => .error e
    | .ok lines => .ok (.printed (String.join lines ++ "\n"))
  else if result = "return" then
    match lineGenRun data offset collapse color with
    | .error e => .error e
    | .ok lines => .ok (.returned (String.join lines))
  else if result = "generator" then
    .ok (.generator (GenState.mk data offset collapse color))
  else
    .error (.valueError "`result` argument should be `print`, `return`, or `generator`")

/-- The `_result` string cached by `hd.__init__`: it joins
`_line_gen(data, offset, collapse)` — the `color` parameter is left at its
default `False`, the `result` argument is accepted but unused, and the
process-wide `COLOR_ALWAYS` flag is never read. -/
def hdResult (colorAlways : Bool) (data : PyData) (result : Option String)
    (offset : Nat) (collapse : Bool) : Except PyErr String :=
  match lineGenRun data offset collapse false with
  | .error e => .error e
  | .ok lines => .ok (String.join lines)

/-- Inputs on which the generator body's duck typing fails with
`TypeError`: no length at all, or a nonzero length with no way to read the
bytes (a zero length short-circuits at line 102 before any conversion). -/
def lacksByteAccess : PyData → Prop
  | .noLen => True
  | .lenOnly n => 0 < n
  | _ => False

/-- The numeric value of one lowercase hexadecimal digit character. -/
def hexCharVal (c : Char) : Nat :=
  if c.toNat < 97 then c.toNat - 48 else c.toNat - 87

/-- The numeric value of a big-endian string of lowercase hexadecimal
digit characters. -/
def hexVal (cs : List Char) : Nat :=
  cs.foldl (fun a c => 16 * a + hexCharVal c) 0

/-- Membership in the lowercase hexadecimal alphabet: the code points of
`0`-`9` or of `a`-`f`. -/
def isLowerHexDigit (c : Char) : Prop :=
  (48 ≤ c.toNat ∧ c.toNat ≤ 57) ∨ (97 ≤ c.toNat ∧ c.toNat ≤ 102)

instance (c : Char) : Decidable (isLowerHexDigit c) := by
  unfold isLowerHexDigit
  infer_instance

/-! ## Facts about the hexadecimal rendering -/

theorem hexCharVal_hexChar {d : Nat} (h : d < 16) : hexCharVal (hexChar d) = d := by
  interval_cases d <;> decide

theorem isLowerHexDigit_hexChar {d : Nat} (h : d < 16) : isLowerHexDigit (hexChar d) := by
  interval_cases d <;> decide

theorem toHexCore_spec (fuel : Nat) : ∀ (n : Nat) (acc : List Char), n < fuel →
    ∃ ds : List Char, toHexCore fuel n acc = ds ++ acc ∧ ds ≠ [] ∧
      (∀ c ∈ ds, ∃ m, m < 16 ∧ c = hexChar m) ∧
      hexVal ds = n ∧ n < 16 ^ ds.length ∧
      (ds.length = 1 ∨ 16 ^ (ds.length - 1) ≤ n) := by
  induction fuel with
  | zero => intro n acc h; exact absurd h (Nat.not_lt_zero n)
  | succ fuel ih =>
    intro n acc hn
    rw [toHexCore]
    by_cases h16 : n < 16
    · rw [if_pos h16]
      refine ⟨[hexChar (n % 16)], rfl, by simp, ?_, ?_, by simpa using h16, Or.inl rfl⟩
      · intro c hc
        rw [List.mem_singleton] at hc
        exact ⟨n % 16, by omega, hc⟩
      · show 16 * 0 + hexCharVal (hexChar (n % 16)) = n
        rw [hexCharVal_hexChar (by omega)]
        omega
    · rw [if_neg h16]
      obtain ⟨ds, hds, hne, hdig, hval, hub, hlb⟩ :=
        ih (n / 16) (hexChar (n % 16) :: acc) (by omega)
      refine ⟨ds ++ [hexChar (n % 16)], ?_, by simp, ?_, ?_, ?_, ?_⟩
      · rw [hds, List.append_assoc, List.singleton_append]
      · intro c hc
        rcases List.mem_append.mp hc with hc | hc
        · exact hdig c hc
        · rw [List.mem_singleton] at hc
          exact ⟨n % 16, by omega, hc⟩
      · show (ds ++ [hexChar (n % 16)]).foldl (fun a c => 16 * a + hexCharVal c) 0 = n
        rw [List.foldl_append]
        show 16 * hexVal ds + hexCharVal (hexChar (n % 16)) = n
        rw [hval, hexCharVal_hexChar (by omega)]
        omega
      · rw [List.length_append, List.length_singleton, pow_succ]
        have : n = 16 * (n / 16) + n % 16 := (Nat.div_add_mod n 16).symm
        omega
      · right
        rw [List.length_append, List.length_singleton, Nat.add_sub_cancel]
        rcases hlb with h1 | h1
        · rw [h1, pow_one]
          omega
        · have hlen : 1 ≤ ds.length := List.length_pos.mpr hne
          have h2 : 16 ^ ds.length = 16 ^ (ds.length - 1) * 16 := by
            rw [← pow_succ]
            congr 1
            omega
          have h3 : 16 ^ (ds.length - 1) * 16 ≤ (n / 16) * 16 :=
            Nat.mul_le_mul_right 16 h1
          have h4 : (n / 16) * 16 ≤ n := Nat.div_mul_le_self n 16
          omega

theorem hexDigits_spec (n : Nat) :
    hexDigits n ≠ [] ∧
    (∀ c ∈ hexDigits n, ∃ m, m < 16 ∧ c = hexChar m) ∧
    hexVal (hexDigits n) = n ∧ n < 16 ^ (hexDigits n).length ∧
    ((hexDigits n).length = 1 ∨ 16 ^ ((hexDigits n).length - 1) ≤ n) := by
  obtain ⟨ds, hds, hne, hdig, hval, hub, hlb⟩ :=
    toHexCore_spec (n + 1) n [] (Nat.lt_succ_self n)
  rw [List.append_nil] at hds
  rw [show hexDigits n = ds from hds]
  exact ⟨hne, hdig, hval, hub, hlb⟩

theorem hexVal_zeros_append (k : Nat) (cs : List Char) :
    hexVal (List.replicate k '0' ++ cs) = hexVal cs := by
  show (List.replicate k '0' ++ cs).foldl (fun a c => 16 * a + hexCharVal c) 0 = hexVal cs
  rw [List.foldl_append]
  have h0 : (List.replicate k '0').foldl (fun a c => 16 * a + hexCharVal c) 0 = 0 := by
    induction k with
    | zero => rfl
    | succ k ihk => rw [List.replicate_succ, List.foldl_cons]; exact ihk
  rw [h0]
  rfl

/-- Python's zero-padded hex format is value-faithful: parsing the digit
string back (big-endian, base 16) recovers the number, for every width. -/
theorem hexVal_hexPad (w n : Nat) : hexVal (hexPad w n).data = n := by
  show hexVal (List.replicate (w - (hexDigits n).length) '0' ++ hexDigits n) = n
  rw [hexVal_zeros_append]
  exact (hexDigits_spec n).2.2.1

theorem hexPad_length (w n : Nat) :
    (hexPad w n).length = (w - (hexDigits n).length) + (hexDigits n).length := by
  show (List.replicate (w - (hexDigits n).length) '0' ++ hexDigits n).length = _
  rw [List.length_append, List.length_replicate]

theorem hex8_length_ge (n : Nat) : 8 ≤ (hex8 n).length := by
  rw [show hex8 n = hexPad 8 n from rfl, hexPad_length]
  omega

theorem hexPad_chars (w n : Nat) : ∀ c ∈ (hexPad w n).data, isLowerHexDigit c := by
  intro c hc
  rcases List.mem_append.mp hc with hc | hc
  · rw [List.eq_of_mem_replicate hc]
    decide
  · obtain ⟨m, hm, rfl⟩ := (hexDigits_spec n).2.1 c hc
    exact isLowerHexDigit_hexChar hm

theorem hexDigits_length_le_two {b : Nat} (h : b < 256) : (hexDigits b).length ≤ 2 := by
  rcases (hexDigits_spec b).2.2.2.2 with h1 | h1
  · omega
  · by_contra hgt
    have h3 : (16 : Nat) ^ 2 ≤ 16 ^ ((hexDigits b).length - 1) :=
      Nat.pow_le_pow_right (by omega) (by omega)
    omega

theorem hex2_length {b : Nat} (h : b < 256) : (hex2 b).length = 2 := by
  have := hexDigits_length_le_two h
  have h1 : 1 ≤ (hexDigits b).length := List.length_pos.mpr (hexDigits_spec b).1
  rw [show hex2 b = hexPad 2 b from rfl, hexPad_length]
  omega

theorem hex8_getLast_isHexDigit (n : Nat) :
    ∃ c, (hex8 n).data.getLast? = some c ∧ isLowerHexDigit c := by
  have hne : hexDigits n ≠ [] := (hexDigits_spec n).1
  have hdata : (hex8 n).data = List.replicate (8 - (hexDigits n).length) '0' ++ hexDigits n := rfl
  rw [hdata, List.getLast?_append_of_ne_nil _ hne]
  cases hq : (hexDigits n).getLast? with
  | none => exact absurd (by simpa using hq) hne
  | some c =>
    refine ⟨c, rfl, ?_⟩
    obtain ⟨m, hm, rfl⟩ := (hexDigits_spec n).2.1 c (List.mem_of_mem_getLast? hq)
    exact isLowerHexDigit_hexChar hm

/-! ## Unfolding equations for the row loop -/

theorem lineLoopF_eq_of_le (offset : Nat) (collapse color : Bool) :
    ∀ (f g : Nat) (d : List Nat) (addr : Nat) (last : Option (List Nat)) (ystar : Bool),
      d.length ≤ f → d.length ≤ g →
      lineLoopF offset collapse color f d addr last ystar
        = lineLoopF offset collapse color g d addr last ystar := by
  intro f
  induction f with
  | zero =>
    intro g d addr last ystar hf hg
    cases d with
    | nil => cases g <;> rfl
    | cons b bs => simp at hf
  | succ f ih =>
    intro g d addr last ystar hf hg
    cases d with
    | nil => cases g <;> rfl
    | cons b bs =>
      cases g with
      | zero => simp at hg
      | succ g =>
        rw [List.length_cons] at hf hg
        have hdl : ((b :: bs).drop 16).length = bs.length + 1 - 16 := by
          rw [List.length_drop, List.length_cons]
        have hih : ∀ addr' last' ystar',
            lineLoopF offset collapse color f ((b :: bs).drop 16) addr' last' ystar'
              = lineLoopF offset collapse color g ((b :: bs).drop 16) addr' last' ystar' :=
          fun addr' last' ystar' => ih g _ addr' last' ystar' (by omega) (by omega)
        rw [lineLoopF, lineLoopF]
        by_cases h1 : collapse = true ∧ last = some ((b :: bs).take 16)
        · rw [if_pos h1, if_pos h1]
          by_cases h2 : ystar = true
          · rw [if_pos h2, if_pos h2, hih]
          · rw [if_neg h2, if_neg h2, hih]
        · rw [if_neg h1, if_neg h1, hih]

theorem lineLoop_nil (offset : Nat) (collapse color : Bool) (addr : Nat)
    (last : Option (List Nat)) (ystar : Bool) :
    lineLoop offset collapse color [] addr last ystar = [] := rfl

theorem lineLoop_cons (offset : Nat) (collapse color : Bool) (b : Nat) (bs : List Nat)
    (addr : Nat) (last : Option (List Nat)) (ystar : Bool) :
    lineLoop offset collapse color (b :: bs) addr last ystar
      = if collapse = true ∧ last = some ((b :: bs).take 16) then
          if ystar = true then
            starLine color ::
              lineLoop offset collapse color ((b :: bs).drop 16) (addr + 16)
                (some ((b :: bs).take 16)) false
          else
            lineLoop offset collapse color ((b :: bs).drop 16) (addr + 16) last ystar
        else
          formatLine color offset addr ((b :: bs).take 16) ::
            lineLoop offset collapse color ((b :: bs).drop 16) (addr + 16)
              (some ((b :: bs).take 16)) true := by
  show lineLoopF offset collapse color (b :: bs).length (b :: bs) addr last ystar = _
  rw [List.length_cons, lineLoopF]
  have heq : ∀ (addr' : Nat) (last' : Option (List Nat)) (ystar' : Bool),
      lineLoopF offset collapse color bs.length ((b :: bs).drop 16) addr' last' ystar'
        = lineLoop offset collapse color ((b :: bs).drop 16) addr' last' ystar' := by
    intro addr' last' ystar'
    apply lineLoopF_eq_of_le
    · rw [List.length_drop, List.length_cons]
      omega
    · exact le_refl _
  simp only [heq]

theorem formatLine_endsep (color : Bool) (offset addr : Nat) (ld : List Nat) :
    ∃ t, formatLine color offset addr ld = t ++ linesep := by
  cases color
  · exact ⟨_, rfl⟩
  · exact ⟨_, rfl⟩

theorem starLine_endsep (color : Bool) : ∃ t, starLine color = t ++ linesep :=
  ⟨_, rfl⟩

/-- Every line produced by the row loop carries a trailing `linesep`. -/
theorem lineLoop_endsep (offset : Nat) (collapse color : Bool) :
    ∀ (k : Nat) (d : List Nat) (addr : Nat) (last : Option (List Nat)) (ystar : Bool),
      d.length ≤ k →
      ∀ s ∈ lineLoop offset collapse color d addr last ystar, ∃ t, s = t ++ linesep := by
  intro k
  induction k with
  | zero =>
    intro d addr last ystar h s hs
    cases d with
    | nil => rw [lineLoop_nil] at hs; exact absurd hs (List.not_mem_nil s)
    | cons b bs => simp at h
  | succ k ih =>
    intro d addr last ystar h s hs
    cases d with
    | nil => rw [lineLoop_nil] at hs; exact absurd hs (List.not_mem_nil s)
    | cons b bs =>
      rw [List.length_cons] at h
      have hdl : ((b :: bs).drop 16).length ≤ k := by
        rw [List.length_drop, List.length_cons]
        omega
      rw [lineLoop_cons] at hs
      by_cases h1 : collapse = true ∧ last = some ((b :: bs).take 16)
      · rw [if_pos h1] at hs
        by_cases h2 : ystar = true
        · rw [if_pos h2] at hs
          rcases List.mem_cons.mp hs with rfl | hs
          · exact starLine_endsep color
          · exact ih _ _ _ _ hdl s hs
        · rw [if_neg h2] at hs
          exact ih _ _ _ _ hdl s hs
      · rw [if_neg h1] at hs
        rcases List.mem_cons.mp hs with rfl | hs
        · exact formatLine_endsep color offset addr _
        · exact ih _ _ _ _ hdl s hs

/-- Unfolding `lineGen` on non-empty data. -/
theorem lineGen_ne_nil (data : List Nat) (offset : Nat) (collapse color : Bool)
    (h : data ≠ []) :
    lineGen data offset collapse color
      = lineLoop offset collapse color data 0 none true
        ++ [addrColorS color ++ hex8 (data.length + offset) ++ resetS color] := by
  unfold lineGen
  rw [if_neg (by simpa using h)]

/-- One loop step that emits a full 16-byte row (the collapse test fails). -/
theorem lineLoop_emit (offset : Nat) (collapse color : Bool) (c t : List Nat)
    (addr : Nat) (last : Option (List Nat)) (ystar : Bool) (hc : c.length = 16)
    (hcond : ¬(collapse = true ∧ last = some c)) :
    lineLoop offset collapse color (c ++ t) addr last ystar
      = formatLine color offset addr c ::
          lineLoop offset collapse color t (addr + 16) (some c) true := by
  obtain ⟨b, bs, rfl⟩ : ∃ b bs, c = b :: bs := by
    cases c with
    | nil => simp at hc
    | cons b bs => exact ⟨b, bs, rfl⟩
  have htake : ((b :: bs) ++ t).take 16 = b :: bs := by
    rw [show (16 : Nat) = (b :: bs).length from hc.symm]
    exact List.take_left _ _
  have hdrop : ((b :: bs) ++ t).drop 16 = t := by
    rw [show (16 : Nat) = (b :: bs).length from hc.symm]
    exact List.drop_left _ _
  rw [List.cons_append, lineLoop_cons, ← List.cons_append, htake, hdrop, if_neg hcond]

/-- One loop step that hits a repeated row with the star still pending. -/
theorem lineLoop_star (offset : Nat) (color : Bool) (c t : List Nat) (addr : Nat)
    (hc : c.length = 16) :
    lineLoop offset true color (c ++ t) addr (some c) true
      = starLine color :: lineLoop offset true color t (addr + 16) (some c) false := by
  obtain ⟨b, bs, rfl⟩ : ∃ b bs, c = b :: bs := by
    cases c with
    | nil => simp at hc
    | cons b bs => exact ⟨b, bs, rfl⟩
  have htake : ((b :: bs) ++ t).take 16 = b :: bs := by
    rw [show (16 : Nat) = (b :: bs).length from hc.symm]
    exact List.take_left _ _
  have hdrop : ((b :: bs) ++ t).drop 16 = t := by
    rw [show (16 : Nat) = (b :: bs).length from hc.symm]
    exact List.drop_left _ _
  rw [List.cons_append, lineLoop_cons, ← List.cons_append, htake, hdrop,
    if_pos ⟨rfl, rfl⟩, if_pos rfl]

/-- One loop step that skips a repeated row after the star was shown. -/
theorem lineLoop_skip (offset : Nat) (color : Bool) (c t : List Nat) (addr : Nat)
    (hc : c.length = 16) :
    lineLoop offset true color (c ++ t) addr (some c) false
      = lineLoop offset true color t (addr + 16) (some c) false := by
  obtain ⟨b, bs, rfl⟩ : ∃ b bs, c = b :: bs := by
    cases c with
    | nil => simp at hc
    | cons b bs => exact ⟨b, bs, rfl⟩
  have htake : ((b :: bs) ++ t).take 16 = b :: bs := by
    rw [show (16 : Nat) = (b :: bs).length from hc.symm]
    exact List.take_left _ _
  have hdrop : ((b :: bs) ++ t).drop 16 = t := by
    rw [show (16 : Nat) = (b :: bs).length from hc.symm]
    exact List.drop_left _ _
  rw [List.cons_append, lineLoop_cons, ← List.cons_append, htake, hdrop,
    if_pos ⟨rfl, rfl⟩, if_neg (by simp)]

/-- After the star is shown, a run of repeats of the same full row
contributes no further output at all. -/
theorem lineLoop_skip_run (offset : Nat) (color : Bool) (c : List Nat)
    (hc : c.length = 16) :
    ∀ (k : Nat) (addr : Nat),
      lineLoop offset true color (repData k c) addr (some c) false = [] := by
  intro k
  induction k with
  | zero => intro addr; rfl
  | succ k ih =>
    intro addr
    rw [show repData (k + 1) c = c ++ repData k c from rfl,
      lineLoop_skip offset color c _ addr hc]
    exact ih (addr + 16)

theorem length_repData (n : Nat) (c : List Nat) :
    (repData n c).length = n * c.length := by
  induction n with
  | zero => simp [repData]
  | succ n ih =>
    rw [show repData (n + 1) c = c ++ repData n c from rfl, List.length_append, ih]
    ring

/-- A final chunk of fewer than 16 bytes is always emitted, provided the
tracked previous chunk (if any) is a full 16-byte one. -/
theorem lineLoop_last_short (offset : Nat) (collapse color : Bool) (d : List Nat)
    (addr : Nat) (last : Option (List Nat)) (ystar : Bool)
    (h1 : 0 < d.length) (h2 : d.length < 16)
    (hlast : ∀ p, last = some p → p.length = 16) :
    lineLoop offset collapse color d addr last ystar
      = [formatLine color offset addr d] := by
  obtain ⟨b, bs, rfl⟩ : ∃ b bs, d = b :: bs := by
    cases d with
    | nil => simp at h1
    | cons b bs => exact ⟨b, bs, rfl⟩
  have htake : (b :: bs).take 16 = b :: bs := List.take_of_length_le (by omega)
  have hdrop : (b :: bs).drop 16 = [] := List.drop_eq_nil_of_le (by omega)
  rw [lineLoop_cons, htake, hdrop, if_neg, lineLoop_nil]
  rintro ⟨-, hl⟩
  have := hlast _ hl
  omega

/-- In any run of the loop whose data does not end on a 16-byte boundary,
the very last produced line is the explicitly formatted short tail chunk. -/
theorem lineLoop_short_tail (offset : Nat) (collapse color : Bool) :
    ∀ (k : Nat) (d : List Nat) (addr : Nat) (last : Option (List Nat)) (ystar : Bool),
      d.length ≤ k → d.length % 16 ≠ 0 →
      (∀ p, last = some p → p.length = 16) →
      ∃ pre, lineLoop offset collapse color d addr last ystar
        = pre ++ [formatLine color offset (addr + 16 * (d.length / 16))
            (d.drop (16 * (d.length / 16)))] := by
  intro k
  induction k with
  | zero =>
    intro d addr last ystar hk hmod hlast
    interval_cases hlen : d.length
    · simp at hmod
  | succ k ih =>
    intro d addr last ystar hk hmod hlast
    by_cases hshort : d.length < 16
    · have h1 : 0 < d.length := by omega
      have hdiv : d.length / 16 = 0 := Nat.div_eq_of_lt hshort
      rw [lineLoop_last_short offset collapse color d addr last ystar h1 hshort hlast,
        hdiv, Nat.mul_zero, Nat.add_zero, List.drop_zero]
      exact ⟨[], rfl⟩
    · obtain ⟨b, bs, rfl⟩ : ∃ b bs, d = b :: bs := by
        cases d with
        | nil => simp at hshort
        | cons b bs => exact ⟨b, bs, rfl⟩
      simp only [List.length_cons] at hk hmod hshort ⊢
      have htakelen : ((b :: bs).take 16).length = 16 := by
        rw [List.length_take, List.length_cons]
        omega
      have hdl : ((b :: bs).drop 16).length = bs.length + 1 - 16 := by
        rw [List.length_drop, List.length_cons]
      have hrest_le : ((b :: bs).drop 16).length ≤ k := by
        rw [hdl]
        omega
      have hrest_mod : ((b :: bs).drop 16).length % 16 ≠ 0 := by
        rw [hdl]
        omega
      have haddr : addr + 16 + 16 * ((bs.length + 1 - 16) / 16)
          = addr + 16 * ((bs.length + 1) / 16) := by
        omega
      have hdropeq : ((b :: bs).drop 16).drop (16 * ((bs.length + 1 - 16) / 16))
          = (b :: bs).drop (16 * ((bs.length + 1) / 16)) := by
        rw [List.drop_drop]
        congr 1
        omega
      rw [lineLoop_cons]
      by_cases h1 : collapse = true ∧ last = some ((b :: bs).take 16)
      · rw [if_pos h1]
        by_cases h2 : ystar = true
        · rw [if_pos h2]
          obtain ⟨pre, hpre⟩ := ih ((b :: bs).drop 16) (addr + 16)
            (some ((b :: bs).take 16)) false hrest_le hrest_mod
            (fun p hp => by rw [← Option.some_inj.mp hp]; exact htakelen)
          exact ⟨starLine color :: pre, by
            rw [hpre, hdl, haddr, hdropeq, List.cons_append]⟩
        · rw [if_neg h2]
          obtain ⟨pre, hpre⟩ := ih ((b :: bs).drop 16) (addr + 16) last ystar
            hrest_le hrest_mod hlast
          exact ⟨pre, by rw [hpre, hdl, haddr, hdropeq]⟩
      · rw [if_neg h1]
        obtain ⟨pre, hpre⟩ := ih ((b :: bs).drop 16) (addr + 16)
          (some ((b :: bs).take 16)) true hrest_le hrest_mod
          (fun p hp => by rw [← Option.some_inj.mp hp]; exact htakelen)
        exact ⟨formatLine color offset addr ((b :: bs).take 16) :: pre, by
          rw [hpre, hdl, haddr, hdropeq, List.cons_append]⟩

/-! ## Facts about row formatting -/

theorem string_mk_length (l : List Char) : (String.mk l).length = l.length := rfl

theorem ljust_length (s : String) (w : Nat) :
    (ljust s w).length = s.length + (w - s.length) := by
  show (s ++ String.mk (List.replicate (w - s.length) ' ')).length = _
  rw [String.length_append]
  congr 1
  rw [string_mk_length, List.length_replicate]

theorem hexSpace_length : ∀ l : List Nat, (∀ b ∈ l, b < 256) → l ≠ [] →
    (hexSpace l).length = 3 * l.length - 1
  | [], _, h => absurd rfl h
  | [b], hb, _ => by
    show (hex2 b).length = 3 * 1 - 1
    rw [hex2_length (hb b (List.mem_singleton_self b))]
  | b :: b2 :: bs, hb, _ => by
    show (hex2 b ++ " " ++ hexSpace (b2 :: bs)).length = _
    rw [String.length_append, String.length_append,
      hex2_length (hb b (List.mem_cons_self b _)),
      hexSpace_length (b2 :: bs) (fun x hx => hb x (List.mem_cons_of_mem b hx))
        (List.cons_ne_nil b2 bs)]
    rw [show (" " : String).length = 1 from rfl]
    simp only [List.length_cons]
    omega

theorem hexSpace_length_le (l : List Nat) (h8 : l.length ≤ 8)
    (h256 : ∀ b ∈ l, b < 256) : (hexSpace l).length ≤ 23 := by
  cases l with
  | nil => exact Nat.zero_le 23
  | cons b bs =>
    rw [hexSpace_length (b :: bs) h256 (List.cons_ne_nil b bs)]
    rw [List.length_cons] at h8 ⊢
    omega

/-- On bytes, the `_ascii_str_map` table is exactly the printable-window
rule the specification states. -/
theorem asciiMapNC_spec {b : Nat} (h : b < 256) :
    asciiMapNC b = if 0x20 ≤ b ∧ b ≤ 0x7E then Char.ofNat b else '.' := by
  unfold asciiMapNC
  split_ifs <;> first | rfl | omega

/-- Every data row opens with the (possibly colored) address field holding
`hex8` of the row's address plus the two-space gap. -/
theorem formatLine_addr_prefix (color : Bool) (offset addr : Nat) (ld : List Nat) :
    ∃ body, formatLine color offset addr ld
      = addrColorS color ++ hex8 (addr + offset) ++ "  " ++ body := by
  cases color with
  | false =>
    refine ⟨ljust (hexSpace (ld.take 8)) 25 ++ (ljust (hexSpace (ld.drop 8)) 25
      ++ ("|" ++ (String.mk (ld.map asciiMapNC) ++ ("|" ++ linesep)))), ?_⟩
    show hex8 (addr + offset) ++ "  "
        ++ ljust (hexSpace (ld.take 8)) 25 ++ ljust (hexSpace (ld.drop 8)) 25
        ++ "|" ++ String.mk (ld.map asciiMapNC) ++ "|" ++ linesep = _
    simp [addrColorS, String.append_assoc]
  | true =>
    refine ⟨ljust (String.join ((ld.take 8).map colorHexMap))
        (25 + min (ld.length * 5) 40)
      ++ (ljust (String.join ((ld.drop 8).map colorHexMap))
          (25 + min ((ld.length - 8) * 5) 40)
        ++ (foreRESET ++ ("|" ++ (String.join (ld.map colorAsciiMap)
          ++ (foreRESET ++ ("|" ++ linesep)))))), ?_⟩
    show foreGREEN ++ hex8 (addr + offset) ++ "  "
        ++ ljust (String.join ((ld.take 8).map colorHexMap))
            (25 + min (ld.length * 5) 40)
        ++ ljust (String.join ((ld.drop 8).map colorHexMap))
            (25 + min ((ld.length - 8) * 5) 40)
        ++ foreRESET ++ "|" ++ String.join (ld.map colorAsciiMap)
        ++ foreRESET ++ "|" ++ linesep = _
    simp [addrColorS, String.append_assoc]

/-- The final address line, colored or not, has no trailing `linesep`. -/
theorem final_line_no_endsep (color : Bool) (n : Nat) :
    ¬ ∃ t, addrColorS color ++ hex8 n ++ resetS color = t ++ linesep := by
  rintro ⟨t, ht⟩
  have hdata := congrArg String.data ht
  rw [String.data_append, String.data_append, String.data_append] at hdata
  have hrhs : (t.data ++ linesep.data).getLast? = some '\n' := by
    rw [show linesep.data = ['\n'] from rfl]
    simp
  rw [← hdata] at hrhs
  cases color with
  | false =>
    rw [show (addrColorS false).data = [] from rfl,
      show (resetS false).data = [] from rfl,
      List.nil_append, List.append_nil] at hrhs
    obtain ⟨c, hc, hhex⟩ := hex8_getLast_isHexDigit n
    rw [hc, Option.some_inj] at hrhs
    rw [hrhs] at hhex
    exact absurd hhex (by decide)
  | true =>
    rw [show (resetS true).data = ['\x1b', '[', '3', '9', 'm'] from rfl,
      List.getLast?_append_of_ne_nil _ (List.cons_ne_nil _ _)] at hrhs
    simp at hrhs

/-- Running the generator body on actual byte-string input never fails. -/
theorem lineGenRun_bytes (bs : List Nat) (offset : Nat) (collapse color : Bool) :
    lineGenRun (.bytes bs) offset collapse color
      = .ok (lineGen bs offset collapse color) := by
  by_cases hb : bs.length = 0
  · have hbs : bs = [] := List.length_eq_zero.mp hb
    subst hbs
    rfl
  · simp [lineGenRun, pyLen, pyBytes, hb]

/-! ## The claims -/

/-- C1: with collapse enabled, an input of `n ≥ 2` byte-for-byte identical
consecutive full 16-byte chunks renders as exactly three lines — the first
chunk's row, one single `*` line for the whole run (never one per repeat,
and no row for any repeated chunk), and the final address line — while a
single 16-byte chunk alone renders with no `*` line at all. -/
theorem c1_collapse_run (c : List Nat) (offset n : Nat) (color : Bool)
    (hc : c.length = 16) (hn : 2 ≤ n) :
    lineGen (repData n c) offset true color
      = [formatLine color offset 0 c, starLine color,
         addrColorS color ++ hex8 ((n * 16) + offset) ++ resetS color]
    ∧ lineGen c offset true color
      = [formatLine color offset 0 c,
         addrColorS color ++ hex8 (16 + offset) ++ resetS color] := by
  constructor
  · obtain ⟨m, rfl⟩ : ∃ m, n = m + 2 := ⟨n - 2, by omega⟩
    have hlen : (repData (m + 2) c).length = (m + 2) * 16 := by
      rw [length_repData, hc]
    have hne : repData (m + 2) c ≠ [] := by
      intro h0
      rw [h0] at hlen
      simp at hlen
    rw [lineGen_ne_nil _ _ _ _ hne, hlen,
      show repData (m + 2) c = c ++ (c ++ repData m c) from rfl,
      lineLoop_emit offset true color c _ 0 none true hc (by simp),
      lineLoop_star offset color c _ 16 hc,
      lineLoop_skip_run offset color c hc m 32]
    rfl
  · have hne : c ≠ [] := by
      intro h0
      rw [h0] at hc
      simp at hc
    have h1 : lineLoop offset true color c 0 none true
        = formatLine color offset 0 c :: lineLoop offset true color [] 16 (some c) true := by
      have h2 := lineLoop_emit offset true color c [] 0 none true hc (by simp)
      rwa [List.append_nil] at h2
    rw [lineGen_ne_nil _ _ _ _ hne, hc, h1, lineLoop_nil]
    rfl

/-- Witness for `c1_collapse_run`: two identical all-zero 16-byte chunks. -/
theorem c1_collapse_run_witness :
    ((List.replicate 16 0 : List Nat).length = 16 ∧ 2 ≤ 2) ∧
    (lineGen (repData 2 (List.replicate 16 0)) 0 true false
      = [formatLine false 0 0 (List.replicate 16 0), starLine false,
         addrColorS false ++ hex8 ((2 * 16) + 0) ++ resetS false]
    ∧ lineGen (List.replicate 16 0) 0 true false
      = [formatLine false 0 0 (List.replicate 16 0),
         addrColorS false ++ hex8 (16 + 0) ++ resetS false]) :=
  ⟨⟨by decide, by decide⟩,
   c1_collapse_run (List.replicate 16 0) 0 2 false (by decide) (by decide)⟩

/-- C2: with any collapse setting, an input whose final chunk holds 1 to 15
bytes always renders that short chunk as an explicit formatted row — the
line immediately before the final address line — never as a `*` marker,
even when its bytes coincide with the previous chunk's leading bytes. -/
theorem c2_short_tail_emitted (data : List Nat) (offset : Nat) (collapse color : Bool)
    (h : data.length % 16 ≠ 0) :
    ∃ pre, lineGen data offset collapse color
      = pre ++ [formatLine color offset (16 * (data.length / 16))
                  (data.drop (16 * (data.length / 16))),
                addrColorS color ++ hex8 (data.length + offset) ++ resetS color] := by
  have hne : data ≠ [] := by
    intro h0
    rw [h0] at h
    simp at h
  obtain ⟨pre, hpre⟩ := lineLoop_short_tail offset collapse color data.length data 0
    none true (le_refl _) h (fun p hp => by cases hp)
  rw [Nat.zero_add] at hpre
  refine ⟨pre, ?_⟩
  rw [lineGen_ne_nil _ _ _ _ hne, hpre, List.append_assoc]
  rfl

/-- Witness for `c2_short_tail_emitted`: a full zero chunk followed by a
nine-byte zero tail (the spec's own scenario). -/
theorem c2_short_tail_emitted_witness :
    ((List.replicate 16 0 ++ List.replicate 9 0 : List Nat).length % 16 ≠ 0) ∧
    (∃ pre, lineGen (List.replicate 16 0 ++ List.replicate 9 0) 0 true false
      = pre ++ [formatLine false 0
                  (16 * ((List.replicate 16 0 ++ List.replicate 9 0 : List Nat).length / 16))
                  ((List.replicate 16 0 ++ List.replicate 9 0 : List Nat).drop
                    (16 * ((List.replicate 16 0 ++ List.replicate 9 0 : List Nat).length / 16))),
                addrColorS false
                  ++ hex8 ((List.replicate 16 0 ++ List.replicate 9 0 : List Nat).length + 0)
                  ++ resetS false]) :=
  ⟨by decide, c2_short_tail_emitted (List.replicate 16 0 ++ List.replicate 9 0) 0 true false
    (by decide)⟩

/-- C3: for every non-empty input and offset, the first emitted row's
address field is `hex8 offset`, the dump ends with a final address line for
`offset + length`, the address format is lowercase hex, zero-padded to at
least 8 digits and value-faithful (no truncation), every line except the
final address line ends with the platform separator, and the final address
line does not. -/
theorem c3_addresses_and_terminators (data : List Nat) (offset : Nat)
    (collapse color : Bool) (h : data ≠ []) :
    (∃ body rest, lineGen data offset collapse color
        = (addrColorS color ++ hex8 offset ++ "  " ++ body) :: rest) ∧
    (lineGen data offset collapse color).getLast?
      = some (addrColorS color ++ hex8 (data.length + offset) ++ resetS color) ∧
    (∀ s ∈ (lineGen data offset collapse color).dropLast, ∃ t, s = t ++ linesep) ∧
    (¬ ∃ t, addrColorS color ++ hex8 (data.length + offset) ++ resetS color
        = t ++ linesep) ∧
    hexVal (hex8 offset).data = offset ∧
    hexVal (hex8 (data.length + offset)).data = data.length + offset ∧
    8 ≤ (hex8 offset).length ∧ 8 ≤ (hex8 (data.length + offset)).length ∧
    (∀ ch ∈ (hex8 offset).data, isLowerHexDigit ch) ∧
    (∀ ch ∈ (hex8 (data.length + offset)).data, isLowerHexDigit ch) := by
  obtain ⟨b, bs, rfl⟩ : ∃ b bs, data = b :: bs := by
    cases data with
    | nil => exact absurd rfl h
    | cons b bs => exact ⟨b, bs, rfl⟩
  refine ⟨?_, ?_, ?_, final_line_no_endsep color _, hexVal_hexPad 8 offset,
    hexVal_hexPad 8 _, hex8_length_ge offset, hex8_length_ge _,
    hexPad_chars 8 offset, hexPad_chars 8 _⟩
  · rw [lineGen_ne_nil _ _ _ _ h, lineLoop_cons, if_neg (by simp), List.cons_append]
    obtain ⟨body, hbody⟩ := formatLine_addr_prefix color offset 0 ((b :: bs).take 16)
    rw [Nat.zero_add] at hbody
    rw [hbody]
    exact ⟨body, _, rfl⟩
  · rw [lineGen_ne_nil _ _ _ _ h]
    simp
  · rw [lineGen_ne_nil _ _ _ _ h]
    intro s hs
    rw [List.dropLast_concat] at hs
    exact lineLoop_endsep offset collapse color (b :: bs).length _ 0 none true
      (le_refl _) s hs

/-- Witness for `c3_addresses_and_terminators` at one byte and offset 1. -/
theorem c3_addresses_and_terminators_witness :
    (([7] : List Nat) ≠ []) ∧
    ((∃ body rest, lineGen [7] 1 true false
        = (addrColorS false ++ hex8 1 ++ "  " ++ body) :: rest) ∧
    (lineGen [7] 1 true false).getLast?
      = some (addrColorS false ++ hex8 (([7] : List Nat).length + 1) ++ resetS false) ∧
    (∀ s ∈ (lineGen [7] 1 true false).dropLast, ∃ t, s = t ++ linesep) ∧
    (¬ ∃ t, addrColorS false ++ hex8 (([7] : List Nat).length + 1) ++ resetS false
        = t ++ linesep) ∧
    hexVal (hex8 1).data = 1 ∧
    hexVal (hex8 (([7] : List Nat).length + 1)).data = ([7] : List Nat).length + 1 ∧
    8 ≤ (hex8 1).length ∧ 8 ≤ (hex8 (([7] : List Nat).length + 1)).length ∧
    (∀ ch ∈ (hex8 1).data, isLowerHexDigit ch) ∧
    (∀ ch ∈ (hex8 (([7] : List Nat).length + 1)).data, isLowerHexDigit ch)) :=
  ⟨by decide, c3_addresses_and_terminators [7] 1 true false (by decide)⟩

/-- C4: empty input renders as the empty string (no lines) when the offset
is zero, and as exactly the padded hex offset followed by exactly one line
terminator when the offset is nonzero. -/
theorem c4_empty_input (offset : Nat) (collapse color : Bool) (h : 0 < offset) :
    lineGen [] 0 collapse color = []
    ∧ String.join (lineGen [] 0 collapse color) = ""
    ∧ lineGen [] offset collapse color
        = [addrColorS color ++ hex8 offset ++ linesep]
    ∧ String.join (lineGen [] offset collapse false) = hex8 offset ++ linesep := by
  refine ⟨rfl, rfl, ?_, ?_⟩
  · unfold lineGen
    rw [if_pos (show ([] : List Nat).length = 0 from rfl),
      if_pos (show offset ≠ 0 by omega)]
  · unfold lineGen
    rw [if_pos (show ([] : List Nat).length = 0 from rfl),
      if_pos (show offset ≠ 0 by omega)]
    show "" ++ (addrColorS false ++ hex8 offset ++ linesep) = hex8 offset ++ linesep
    rfl

/-- Witness for `c4_empty_input` at offset 16. -/
theorem c4_empty_input_witness :
    0 < 16 ∧
    (lineGen [] 0 true false = []
    ∧ String.join (lineGen [] 0 true false) = ""
    ∧ lineGen [] 16 true false = [addrColorS false ++ hex8 16 ++ linesep]
    ∧ String.join (lineGen [] 16 true false) = hex8 16 ++ linesep) :=
  ⟨by decide, c4_empty_input 16 true false (by decide)⟩

/-- C5: a non-color row maps each byte `b` to `chr b` when
`0x20 ≤ b ≤ 0x7E` and to `.` otherwise in the ASCII field, wraps that
field in `|` directly after the hex field, and left-justifies the hex
field to the fixed 50-character width of a full 16-byte row, so the
opening `|` sits at the same column for every row length. -/
theorem c5_row_fields (offset addr : Nat) (ld : List Nat)
    (h16 : ld.length ≤ 16) (h256 : ∀ b ∈ ld, b < 256) :
    ∃ hexF : String,
      formatLine false offset addr ld
        = hex8 (addr + offset) ++ "  " ++ hexF ++ "|"
            ++ String.mk (ld.map (fun b =>
                if 0x20 ≤ b ∧ b ≤ 0x7E then Char.ofNat b else '.'))
            ++ "|" ++ linesep
      ∧ hexF.length = 50 := by
  have hmap : ld.map asciiMapNC
      = ld.map (fun b => if 0x20 ≤ b ∧ b ≤ 0x7E then Char.ofNat b else '.') :=
    List.map_congr_left (fun b hb => asciiMapNC_spec (h256 b hb))
  refine ⟨ljust (hexSpace (ld.take 8)) 25 ++ ljust (hexSpace (ld.drop 8)) 25, ?_, ?_⟩
  · show hex8 (addr + offset) ++ "  " ++ ljust (hexSpace (ld.take 8)) 25
        ++ ljust (hexSpace (ld.drop 8)) 25 ++ "|" ++ String.mk (ld.map asciiMapNC)
        ++ "|" ++ linesep = _
    rw [hmap]
    simp [String.append_assoc]
  · have ht : (hexSpace (ld.take 8)).length ≤ 23 :=
      hexSpace_length_le _ (by rw [List.length_take]; omega)
        (fun b hb => h256 b (List.take_subset _ _ hb))
    have hd : (hexSpace (ld.drop 8)).length ≤ 23 :=
      hexSpace_length_le _ (by rw [List.length_drop]; omega)
        (fun b hb => h256 b (List.drop_subset _ _ hb))
    rw [String.length_append, ljust_length, ljust_length]
    omega

/-- Witness for `c5_row_fields` on a mixed printable/non-printable row. -/
theorem c5_row_fields_witness :
    (([0, 65, 127] : List Nat).length ≤ 16 ∧ (∀ b ∈ ([0, 65, 127] : List Nat), b < 256)) ∧
    (∃ hexF : String,
      formatLine false 0 16 [0, 65, 127]
        = hex8 (16 + 0) ++ "  " ++ hexF ++ "|"
            ++ String.mk (([0, 65, 127] : List Nat).map (fun b =>
                if 0x20 ≤ b ∧ b ≤ 0x7E then Char.ofNat b else '.'))
            ++ "|" ++ linesep
      ∧ hexF.length = 50) :=
  ⟨⟨by decide, by decide⟩, c5_row_fields 0 16 [0, 65, 127] (by decide) (by decide)⟩

/-- C6: with color active, both the hex map and the ASCII map give byte
`b` the printable color for `0x20 ≤ b ≤ 0x7E`, the reset/neutral color
exactly for `b = 0`, and the non-printable color for everything else
(`0x01`–`0x1F` and `0x7F`–`0xFF`). -/
theorem c6_color_classes (b : Nat) (h : b < 256) :
    (∃ g, colorAsciiMap b
        = (if 0x20 ≤ b ∧ b ≤ 0x7E then foreYELLOW
           else if b = 0 then foreRESET else foreCYAN) ++ g)
    ∧ colorHexMap b
        = (if 0x20 ≤ b ∧ b ≤ 0x7E then foreYELLOW
           else if b = 0 then foreRESET else foreCYAN) ++ (hex2 b ++ " ") := by
  constructor
  · by_cases h0 : b = 0
    · subst h0
      exact ⟨".", rfl⟩
    · by_cases hp : 0x20 ≤ b ∧ b ≤ 0x7E
      · refine ⟨String.mk [Char.ofNat b], ?_⟩
        unfold colorAsciiMap
        rw [if_neg h0, if_neg (by omega), if_pos (by omega), if_pos hp]
      · refine ⟨".", ?_⟩
        unfold colorAsciiMap
        split_ifs <;> first | rfl | omega
  · unfold colorHexMap
    split_ifs <;> first | rfl | omega

/-- Witness for `c6_color_classes` at the DEL byte `0x7F`. -/
theorem c6_color_classes_witness :
    (0x7F : Nat) < 256 ∧
    ((∃ g, colorAsciiMap 0x7F
        = (if 0x20 ≤ (0x7F : Nat) ∧ (0x7F : Nat) ≤ 0x7E then foreYELLOW
           else if (0x7F : Nat) = 0 then foreRESET else foreCYAN) ++ g)
    ∧ colorHexMap 0x7F
        = (if 0x20 ≤ (0x7F : Nat) ∧ (0x7F : Nat) ≤ 0x7E then foreYELLOW
           else if (0x7F : Nat) = 0 then foreRESET else foreCYAN)
          ++ (hex2 0x7F ++ " ")) :=
  ⟨by decide, c6_color_classes 0x7F (by decide)⟩

/-- C7 counterexample: on an input without a length, a `hexdump` call in
`generator` mode does not fail at the point of the call — it succeeds and
returns the unstarted generator, so the type error is not raised
synchronously "regardless of the selected output mode". -/
theorem c7_generator_defers_error :
    hexdump false PyData.noLen "generator" 0 true false
      = Except.ok (HexdumpRet.generator (GenState.mk PyData.noLen 0 true false)) := by
  rfl

/-- C7 (amended): on an input lacking a length or byte access (with
nonzero reported length), `print` and `return` modes raise the type error
at the point of the call before any output, while `generator` mode returns
the unstarted generator successfully and the type error surfaces only when
that generator is first run. -/
theorem c7_lazy_type_error (d : PyData) (ca : Bool) (offset : Nat)
    (collapse color : Bool) (h : lacksByteAccess d) :
    (∃ m, hexdump ca d "print" offset collapse color = .error (.typeError m))
    ∧ (∃ m, hexdump ca d "return" offset collapse color = .error (.typeError m))
    ∧ (∃ g, hexdump ca d "generator" offset collapse color = .ok (.generator g)
        ∧ ∃ m, runGen g = .error (.typeError m)) := by
  have herr : ∃ m, lineGenRun d offset collapse (if ca then ca else color)
      = .error (.typeError m) := by
    cases d with
    | bytes bs => exact h.elim
    | str cps => exact h.elim
    | seq xs => exact h.elim
    | lenOnly n =>
      have hn : 0 < n := h
      refine ⟨"cannot convert object to bytes", ?_⟩
      simp [lineGenRun, pyLen, pyBytes, Nat.pos_iff_ne_zero.mp hn]
    | noLen => exact ⟨"object of this type has no len()", rfl⟩
  obtain ⟨m, hm⟩ := herr
  refine ⟨⟨m, ?_⟩, ⟨m, ?_⟩,
    ⟨GenState.mk d offset collapse (if ca then ca else color), ?_, ⟨m, hm⟩⟩⟩
  · simp [hexdump, hm]
  · simp [hexdump, hm]
  · simp [hexdump]

/-- Witness for `c7_lazy_type_error` on the length-less input. -/
theorem c7_lazy_type_error_witness :
    lacksByteAccess PyData.noLen ∧
    ((∃ m, hexdump false PyData.noLen "print" 0 true false = .error (.typeError m))
    ∧ (∃ m, hexdump false PyData.noLen "return" 0 true false = .error (.typeError m))
    ∧ (∃ g, hexdump false PyData.noLen "generator" 0 true false = .ok (.generator g)
        ∧ ∃ m, runGen g = .error (.typeError m))) :=
  ⟨(True.intro : lacksByteAccess PyData.noLen),
   c7_lazy_type_error PyData.noLen false 0 true false (True.intro : lacksByteAccess PyData.noLen)⟩

/-- C8: any `result` value other than the three recognized ones makes the
entry point fail with the `ValueError` naming the allowed set (before any
output), and the three recognized values produce printed output, a
returned string, and a generator respectively. -/
theorem c8_result_mode_dispatch (ca : Bool) (d : PyData) (bs : List Nat) (r : String)
    (offset : Nat) (collapse color : Bool)
    (h : r ≠ "print" ∧ r ≠ "return" ∧ r ≠ "generator") :
    hexdump ca d r offset collapse color
      = .error (.valueError "`result` argument should be `print`, `return`, or `generator`")
    ∧ (∃ s, hexdump ca (.bytes bs) "print" offset collapse color = .ok (.printed s))
    ∧ (∃ s, hexdump ca (.bytes bs) "return" offset collapse color = .ok (.returned s))
    ∧ (∃ g, hexdump ca (.bytes bs) "generator" offset collapse color = .ok (.generator g)) := by
  obtain ⟨h1, h2, h3⟩ := h
  refine ⟨?_, ?_, ?_, ⟨GenState.mk (.bytes bs) offset collapse
    (if ca then ca else color), rfl⟩⟩
  · simp [hexdump, h1, h2, h3]
  · refine ⟨String.join (lineGen bs offset collapse (if ca then ca else color)) ++ "\n", ?_⟩
    simp [hexdump, lineGenRun_bytes]
  · refine ⟨String.join (lineGen bs offset collapse (if ca then ca else color)), ?_⟩
    simp [hexdump, lineGenRun_bytes]

/-- Witness for `c8_result_mode_dispatch` at the unrecognized mode "dump". -/
theorem c8_result_mode_dispatch_witness :
    (("dump" : String) ≠ "print" ∧ ("dump" : String) ≠ "return"
      ∧ ("dump" : String) ≠ "generator") ∧
    (hexdump false (.bytes [0]) "dump" 0 true false
      = .error (.valueError "`result` argument should be `print`, `return`, or `generator`")
    ∧ (∃ s, hexdump false (.bytes [0]) "print" 0 true false = .ok (.printed s))
    ∧ (∃ s, hexdump false (.bytes [0]) "return" 0 true false = .ok (.returned s))
    ∧ (∃ g, hexdump false (.bytes [0]) "generator" 0 true false = .ok (.generator g))) :=
  ⟨⟨by decide, by decide, by decide⟩,
   c8_result_mode_dispatch false (.bytes [0]) [0] "dump" 0 true false
     ⟨by decide, by decide, by decide⟩⟩

/-- C9: the dump in return-string mode is a deterministic, side-effect-free
function of `(colorAlways, data, offset, collapse, color)`: any two
invocations with the same arguments yield byte-identical strings. -/
theorem c9_deterministic (ca : Bool) (d : PyData) (offset : Nat)
    (collapse color : Bool) (s₁ s₂ : String)
    (h₁ : hexdump ca d "return" offset collapse color = .ok (.returned s₁))
    (h₂ : hexdump ca d "return" offset collapse color = .ok (.returned s₂)) :
    s₁ = s₂ := by
  have h3 : HexdumpRet.returned s₁ = HexdumpRet.returned s₂ :=
    Except.ok.inj (h₁.symm.trans h₂)
  exact HexdumpRet.returned.inj h3

/-- Witness for `c9_deterministic` on a one-byte input. -/
theorem c9_deterministic_witness :
    (hexdump false (.bytes [0]) "return" 0 true false
        = .ok (.returned (String.join (lineGen [0] 0 true false)))) ∧
    String.join (lineGen [0] 0 true false) = String.join (lineGen [0] 0 true false) :=
  ⟨rfl, c9_deterministic false (.bytes [0]) 0 true false _ _ rfl rfl⟩

/-- C10: the `hd` wrapper builds the uncolored dump unconditionally — its
cached string ignores the `result` parameter and the process-wide
always-color flag entirely, and on byte input it is exactly the joined
uncolored line sequence. -/
theorem c10_hd_uncolored (ca₁ ca₂ : Bool) (r₁ r₂ : Option String) (d : PyData)
    (offset : Nat) (collapse : Bool) :
    hdResult ca₁ d r₁ offset collapse = hdResult ca₂ d r₂ offset collapse
    ∧ (∀ bs : List Nat, hdResult ca₁ (.bytes bs) r₁ offset collapse
        = .ok (String.join (lineGen bs offset collapse false))) := by
  constructor
  · rfl
  · intro bs
    unfold hdResult
    rw [lineGenRun_bytes]

example : formatLine false 0 0 (List.replicate 16 0)
    = "00000000  00 00 00 00 00 00 00 00  00 00 00 00 00 00 00 00  |................|\n" := by
  decide

example : lineGen (List.replicate 16 0) 0 true false
    = ["00000000  00 00 00 00 00 00 00 00  00 00 00 00 00 00 00 00  |................|\n",
       "00000010"] := by
  decide
